/-
Verification of the candy-machine CLI upload/registration/verification
pipeline (`js/packages/cli/src/cli.ts`) against its specification.

The TypeScript source is shallowly embedded: the cache document becomes an
explicit record threaded through pure functions, JavaScript objects keyed by
item index become association lists in insertion order, network calls
(anchor RPC, fee-payment transaction, storage POST) become oracle functions
passed in as parameters, and `fs.writeFileSync` calls are recorded as a list
of persisted cache snapshots.  JavaScript quirks that the code relies on are
modelled explicitly: string falsiness (`!link` is true for both `undefined`
and `""`), `switch` fall-through, `String.prototype.replace` replacing only
the first occurrence, and `String.prototype.match` interpreting its string
argument as a regular expression.
-/
import Mathlib

/-! ## JavaScript-level helpers -/

/-- Models `Array.prototype.slice(a, b)` / `Buffer.prototype.slice(a, b)`:
the elements from position `a` (inclusive) to `b` (exclusive). -/
def jsSlice (a b : Nat) (l : List α) : List α :=
  (l.drop a).take (b - a)

/-- The `chunks(array, size)` helper from `cli.ts`: `Math.ceil(array.length / size)`
consecutive slices `array.slice(index * size, (index + 1) * size)`. -/
def chunks (array : List α) (size : Nat) : List (List α) :=
  (List.range ((array.length + size - 1) / size)).map
    (fun index => jsSlice (index * size) ((index + 1) * size) array)

/-- JavaScript falsiness of a possibly-absent string: `undefined` and the
empty string are falsy, every other string is truthy.  Models `!link` and
`!cacheContent.program.uuid`. -/
def jsFalsyOpt : Option String → Bool
  | none => true
  | some s => s = ""

/-- Remove the first occurrence of `pat` from a character list
(`String.prototype.replace(pat, '')` with a string pattern replaces only the
first occurrence; if `pat` does not occur the input is unchanged). -/
def removeFirst (pat : List Char) : List Char → List Char
  | [] => []
  | c :: cs =>
    if pat.isPrefixOf (c :: cs) then (c :: cs).drop pat.length
    else c :: removeFirst pat cs

/-- Models `s.replace(pat, '')` for a string pattern: first occurrence only. -/
def replaceFirst (s pat : String) : String :=
  String.mk (removeFirst pat.toList s.toList)

/-- Split a character list at every occurrence of `sep`
(`String.prototype.split(sep)` for a one-character separator; splitting the
empty string yields one empty field). -/
def splitChar (sep : Char) : List Char → List (List Char)
  | [] => [[]]
  | c :: cs =>
    match splitChar sep cs with
    | [] => [[c]]
    | g :: gs => if c = sep then [] :: g :: gs else (c :: g) :: gs

/-- Models `s.split(sep)` for a one-character separator. -/
def jsStrSplit (f : String) (sep : Char) : List String :=
  (splitChar sep f.toList).map String.mk

/-- Models `path.basename(f)` (POSIX): the part after the last `/`. -/
def jsBasename (f : String) : String :=
  (jsStrSplit f '/').getLastD ""

/-- Models `path.extname(f)` (POSIX): the suffix of the basename starting at its
last `.`, where a leading dot of the basename does not count (so
`extname(".png") = ""`). -/
def jsExtname (f : String) : String :=
  match (jsBasename f).toList with
  | [] => ""
  | _ :: rest =>
    let r := rest.reverse
    let pre := r.takeWhile (fun c => c ≠ '.')
    if pre.length = r.length then ""
    else String.mk ('.' :: pre.reverse)

/-- The dedup key of a freshly listed file:
`f.replace(extension, '').split('/').pop()` with `extension = '.png'`. -/
def fileKey (f : String) : String :=
  (jsStrSplit (replaceFirst f ".png") '/').getLastD ""

/-! ## Data model

The cache document (`.cache/<cacheName>`): a JSON object with a `program`
singleton and an `items` object keyed by item index.  JavaScript object
fields are kept in insertion order; keys of `items` are pairwise distinct by
construction, so `items` is modelled as an association list. -/

/-- One cache record: `{ link, name, onChain }`.  `link` is `none` when the
field is `undefined`. -/
structure Item where
  link : Option String
  name : String
  onChain : Bool
deriving DecidableEq, Repr

instance : Inhabited Item := ⟨⟨none, "", false⟩⟩

/-- The `cacheContent.program` singleton: `uuid` and `config` are absent until the one-time
`initializeConfig` call succeeds. -/
structure ProgramState where
  uuid : Option String
  config : Option String
deriving DecidableEq, Repr

/-- The whole cache document. -/
structure CacheDoc where
  program : ProgramState
  items : List (String × Item)
deriving DecidableEq, Repr

/-- Reads `cacheContent.items[k]` — `none` when the key is absent. -/
def getItem (items : List (String × Item)) (k : String) : Option Item :=
  (items.find? (fun p => p.1 = k)).map Prod.snd

/-- Models `cacheContent.items[k] = v`: overwrite in place if the key exists,
otherwise append (JavaScript objects keep insertion order). -/
def setItem (items : List (String × Item)) (k : String) (v : Item) :
    List (String × Item) :=
  if (items.find? (fun p => p.1 = k)).isSome then
    items.map (fun p => if p.1 = k then (k, v) else p)
  else
    items ++ [(k, v)]

/-! ## Item-set construction (dedup pass of the upload action)

`seen` starts empty; each fresh file is kept only if its `fileKey` is unseen;
afterwards every cache key not yet seen is appended as `key + '.png'`. -/

/-- First pass over the fresh file listing.  Returns the final `seen` list and
the kept files, in order. -/
def dedupPassNew (seen : List String) : List String → List String × List String
  | [] => (seen, [])
  | f :: fs =>
    if fileKey f ∈ seen then dedupPassNew seen fs
    else
      let r := dedupPassNew (fileKey f :: seen) fs
      (r.1, f :: r.2)

/-- Second pass over the keys already present in the cache: any unseen key is
appended as `key + '.png'`. -/
def dedupPassCache (seen : List String) : List String → List String
  | [] => []
  | f :: fs =>
    if f ∈ seen then dedupPassCache seen fs
    else (f ++ ".png") :: dedupPassCache (f :: seen) fs

/-- The `newFiles` list as built by the upload action. -/
def newFilesOf (files existingInCache : List String) : List String :=
  let r := dedupPassNew [] files
  r.2 ++ dedupPassCache r.1 existingInCache

/-! ## Cluster URLs and the environment switch -/

def MAINNET_CLUSTER_URL : String := "https://api.mainnet-beta.solana.com/"
def DEVNET_CLUSTER_URL : String := "https://api.devnet.solana.com/"
def TESTNET_CLUSTER_URL : String := "https://api.testnet.solana.com/"

/-- One `case` of a JavaScript `switch` with no `break`: once some earlier (or
this) case has matched, the body runs; state is (matched so far, current
`env`). -/
def switchCase (st : Bool × Option String) (hit : Bool) (body : String) :
    Bool × Option String :=
  let matched := st.1 || hit
  (matched, if matched then some body else st.2)

/-- The `switch (url)` of the upload action.  None of its cases has a
`break`, so a match on any recognized URL falls through every later body;
the bodies run in source order `'mainnet'`, `'testnet'`, `'devnet'`. -/
def envAfterSwitch (url : String) : Option String :=
  (switchCase
    (switchCase
      (switchCase (false, none) (url == MAINNET_CLUSTER_URL) "mainnet")
      (url == TESTNET_CLUSTER_URL) "testnet")
    (url == DEVNET_CLUSTER_URL) "devnet").2

/-! ## Storage upload -/

/-- One entry of `result.messages` in the storage service's JSON response.
A missing `transactionId` field is modelled as `""` (both are falsy). -/
structure StorageMsg where
  filename : String
  transactionId : String
deriving DecidableEq, Repr

/-- The names under which the two files are attached to the multipart
request: `data.append('file[]', ..., 'image.png')` and
`data.append('file[]', manifestBuffer, 'metadata.json')`. -/
def uploadedFileNames : List String := ["image.png", "metadata.json"]

/-- The link computation after a successful storage POST:
`result.messages?.find(m => m.filename === 'manifest.json')`, and
`link = 'https://arweave.net/' + metadataFile.transactionId` only when
`metadataFile?.transactionId` is truthy; otherwise `link` keeps its previous
value. -/
def metadataLinkOfMessages (link0 : Option String) (msgs : List StorageMsg) :
    Option String :=
  match msgs.find? (fun m => m.filename = "manifest.json") with
  | some m =>
    if m.transactionId ≠ "" then some ("https://arweave.net/" ++ m.transactionId)
    else link0
  | none => link0

/-! ## Upload phase (per-item loop of the upload action)

Network calls and file reads become oracles; `fs.writeFileSync` of the cache
is recorded in `saves`; `console.error` messages in `errors`.  The
fee-payment transaction (`sendTransactionWithRetryWithKeypair`) is *not*
inside any `try`, so its failure is an uncaught exception that aborts the
loop (`aborted`). -/

structure Oracles where
  /-- Result of the one-time `createConfig` call: `(uuid, config base-58)`;
  `Except.error` when `initializeConfig` rejects. -/
  createConfig : Except String (String × String)
  /-- The fee-payment transaction for a given item index: its txid, or an
  uncaught rejection. -/
  feeTx : String → Except String String
  /-- The storage POST for a given item index: `result.messages`, or a
  fetch/JSON failure (caught by the surrounding `try`). -/
  storage : String → Except String (List StorageMsg)
  /-- Reads `JSON.parse(fs.readFileSync(manifestPath)).name` for a given index. -/
  manifestName : String → String

structure UploadResult where
  cache : CacheDoc
  /-- Confirmed fee-payment transaction ids, in order. -/
  feeTxs : List String
  /-- Indices for which a storage POST was attempted, in order. -/
  uploads : List String
  /-- Cache snapshots written by `fs.writeFileSync`, in order. -/
  saves : List CacheDoc
  /-- Messages reported through `console.error`. -/
  errors : List String
  /-- Uncaught exception (fee-payment failure), aborting the run. -/
  aborted : Option String
deriving DecidableEq, Repr

/-- The body of `for (let i = 0; i < SIZE; i++)` for one image. -/
def processItem (o : Oracles) (i : Nat) (image : String) (r : UploadResult) :
    UploadResult :=
  let index := replaceFirst (jsBasename image) ".png"
  let c := r.cache
  let link0 := (getItem c.items index).bind Item.link
  if jsFalsyOpt link0 || jsFalsyOpt c.program.uuid then
    let manifestName := o.manifestName index
    -- `if (i === 0 && !cacheContent.program.uuid)`: one-time config creation,
    -- caught by its own try/catch.
    let afterConfig : CacheDoc × List CacheDoc × List String :=
      if i == 0 && jsFalsyOpt c.program.uuid then
        match o.createConfig with
        | Except.ok uc =>
          let c' : CacheDoc :=
            { c with program := { uuid := some uc.1, config := some uc.2 } }
          (c', [c'], [])
        | Except.error e => (c, [], ["Error deploying config to Solana network. " ++ e])
      else (c, [], [])
    let c1 := afterConfig.1
    if jsFalsyOpt link0 then
      match o.feeTx index with
      | Except.error e =>
        { cache := c1, feeTxs := r.feeTxs, uploads := r.uploads,
          saves := r.saves ++ afterConfig.2.1,
          errors := r.errors ++ afterConfig.2.2, aborted := some e }
      | Except.ok tx =>
        match o.storage index with
        | Except.error e =>
          { cache := c1, feeTxs := r.feeTxs ++ [tx], uploads := r.uploads ++ [index],
            saves := r.saves ++ afterConfig.2.1,
            errors := r.errors ++ afterConfig.2.2
              ++ ["Error uploading file " ++ index ++ ": " ++ e],
            aborted := none }
        | Except.ok msgs =>
          let link1 := metadataLinkOfMessages link0 msgs
          let newRecord : Item :=
            { link := link1, name := manifestName, onChain := false }
          let c2 : CacheDoc := { c1 with items := setItem c1.items index newRecord }
          { cache := c2, feeTxs := r.feeTxs ++ [tx], uploads := r.uploads ++ [index],
            saves := r.saves ++ afterConfig.2.1 ++ [c2],
            errors := r.errors ++ afterConfig.2.2, aborted := none }
    else
      { cache := c1, feeTxs := r.feeTxs, uploads := r.uploads,
        saves := r.saves ++ afterConfig.2.1,
        errors := r.errors ++ afterConfig.2.2, aborted := none }
  else r

/-- The per-item loop; an uncaught fee-payment exception stops it. -/
def uploadLoop (o : Oracles) : Nat → List String → UploadResult → UploadResult
  | _, [], r => r
  | i, img :: rest, r =>
    let r' := processItem o i img r
    if r'.aborted.isSome then r' else uploadLoop o (i + 1) rest r'

/-- The whole upload phase: dedup, filter to `.png` images, then the per-item
loop starting from the loaded cache. -/
def uploadPhase (o : Oracles) (files : List String) (c : CacheDoc) :
    UploadResult :=
  let existingInCache := c.items.map Prod.fst
  let images := (newFilesOf files existingInCache).filter
    (fun f => jsExtname f = ".png")
  uploadLoop o 0 images
    { cache := c, feeTxs := [], uploads := [], saves := [], errors := [],
      aborted := none }

/-! ## Config account layout constants -/

/-- Byte offset of the config-line array inside the config account:
authority (32) + uuid (4 + 6) + symbol (4 + 10) + seller fee basis points (2)
+ creators option/len/vec (1 + 4 + 5 * 34) + max supply (8) + is mutable (1)
+ retain authority (1) + max number of lines (4). -/
def configArrayStart : Nat :=
  32 + 4 + 6 + 4 + 10 + 2 + 1 + 4 + 5 * 34 + 8 + 1 + 1 + 4

/-- Size of one config line record:
4 (name length) + 32 (name buffer) + 4 (uri length) + 200 (uri buffer). -/
def configLineSize : Nat := 4 + 32 + 4 + 200

/-! ## Batch registration phase

`Object.keys(cacheContent.items)` is `items.map Prod.fst` (insertion order);
positions `0 .. keys.length - 1` are split into macro-groups of 1000 by
`chunks`, and each macro-group is walked in micro-batches of 10 by
`for (offset = 0; offset < allIndexesInSlice.length; offset += 10)`.

JavaScript object keys are pairwise distinct and `keys[i]` is the key of the
`i`-th entry, so the lookups `cacheContent.items[keys[i]]` and the
assignments to them are modelled positionally on the association list.

`Promise.all` starts the macro-group loops concurrently; each loop is
internally sequential and the position ranges touched by distinct
macro-groups are disjoint, so the phase is modelled by running the groups in
order. -/

/-- One `{uri, name}` config line of an `addConfigLines` call. -/
structure ConfigLine where
  uri : Option String
  name : String
deriving DecidableEq, Repr

/-- One `addConfigLines` request: the insertion key `ind = keys[indexes[0]]`
and the lines for every position in the micro-batch. -/
structure Request where
  ind : String
  lines : List ConfigLine
deriving DecidableEq, Repr

/-- Models `cacheContent.items[keys[i]] = { ...cacheContent.items[keys[i]], onChain: true }`
for one position `i`. -/
def markOnChain (items : List (String × Item)) (i : Nat) :
    List (String × Item) :=
  let p := items.getD i default
  items.set i (p.1, { p.2 with onChain := true })

/-- Outcome of one micro-batch body. -/
structure MicroOut where
  items : List (String × Item)
  /-- The `addConfigLines` request, when one was submitted. -/
  attempted : Option Request
  /-- Whether the cache was flushed (it is, right after a confirmed batch). -/
  saved : Bool
  /-- The submission rejection, if any (uncaught inside the group loop). -/
  error : Option String
deriving DecidableEq, Repr

/-- The body of the micro-batch loop for positions `indexes`:
skip when every position is already `onChain`; otherwise submit
`addConfigLines` and, on confirmation, mark every position `onChain` and
flush the cache.  A rejection escapes the loop. -/
def microStep (submit : Request → Except String String) (keys : List String)
    (items : List (String × Item)) (indexes : List Nat) : MicroOut :=
  let onChain := indexes.filter (fun i => ((items.getD i default).2).onChain)
  let ind := keys.getD (indexes.headD 0) ""
  if onChain.length ≠ indexes.length then
    let req : Request :=
      { ind := ind,
        lines := indexes.map (fun i =>
          { uri := ((items.getD i default).2).link,
            name := ((items.getD i default).2).name }) }
    match submit req with
    | Except.error e =>
      { items := items, attempted := some req, saved := false, error := some e }
    | Except.ok _tx =>
      let items' := indexes.foldl markOnChain items
      { items := items', attempted := some req, saved := true, error := none }
  else
    { items := items, attempted := none, saved := false, error := none }

/-- The offsets visited by
`for (offset = 0; offset < len; offset += 10)`: `0, 10, 20, ...`. -/
def microOffsets (len : Nat) : List Nat :=
  (List.range ((len + 9) / 10)).map (· * 10)

/-- The micro-batches of one macro-group, in order:
`allIndexesInSlice.slice(offset, offset + 10)` for each visited offset. -/
def microBatches (group : List Nat) : List (List Nat) :=
  (microOffsets group.length).map (fun off => jsSlice off (off + 10) group)

/-- Outcome of one macro-group's micro-batch loop. -/
structure GroupOut where
  items : List (String × Item)
  attempts : List Request
  saves : List (List (String × Item))
  error : Option String
deriving DecidableEq, Repr

/-- The micro-batch loop of one macro-group, by remaining offsets.  A
submission rejection aborts the loop (there is no per-batch `try`); the
rejection propagates to the `Promise.all` surrounding the groups. -/
def runGroupOffsets (submit : Request → Except String String)
    (keys : List String) (group : List Nat) :
    List Nat → List (String × Item) → GroupOut
  | [], items => { items := items, attempts := [], saves := [], error := none }
  | off :: rest, items =>
    let indexes := jsSlice off (off + 10) group
    let m := microStep submit keys items indexes
    match m.error with
    | some e =>
      { items := m.items, attempts := m.attempted.toList, saves := [],
        error := some e }
    | none =>
      let r := runGroupOffsets submit keys group rest m.items
      { items := r.items, attempts := m.attempted.toList ++ r.attempts,
        saves := (if m.saved then [m.items] else []) ++ r.saves,
        error := r.error }

/-- One macro-group's full run. -/
def runGroup (submit : Request → Except String String) (keys : List String)
    (group : List Nat) (items : List (String × Item)) : GroupOut :=
  runGroupOffsets submit keys group (microOffsets group.length) items

/-- All macro-groups in order, collecting attempts, cache flushes and
rejections (the surrounding `catch (e) console.error(e)` turns rejections
into reported errors). -/
def runGroupsLoop (submit : Request → Except String String)
    (keys : List String) :
    List (List Nat) → List (String × Item) →
      List (String × Item) × List Request × List (List (String × Item)) × List String
  | [], items => (items, [], [], [])
  | g :: gs, items =>
    let r := runGroup submit keys g items
    let rest := runGroupsLoop submit keys gs r.items
    (rest.1, r.attempts ++ rest.2.1, r.saves ++ rest.2.2.1,
      r.error.toList ++ rest.2.2.2)

/-- Outcome of the batch registration phase. -/
structure BatchOut where
  cache : CacheDoc
  attempts : List Request
  saves : List CacheDoc
  errors : List String
deriving DecidableEq, Repr

/-- The batch registration phase: split positions into macro-groups of 1000,
run the group loops, catch any rejection, and — in `finally` — flush the
cache unconditionally. -/
def batchPhase (submit : Request → Except String String) (c : CacheDoc) :
    BatchOut :=
  let keys := c.items.map Prod.fst
  let groups := chunks (List.range keys.length) 1000
  let r := runGroupsLoop submit keys groups c.items
  let final : CacheDoc := { c with items := r.1 }
  { cache := final,
    attempts := r.2.1,
    saves := (r.2.2.1.map (fun its => { c with items := its })) ++ [final],
    errors := r.2.2.2 }

/-! ## The whole upload action -/

/-- Outcome of the upload action: upload phase then batch phase.  When the
upload phase aborts with an uncaught fee-payment rejection, the batch phase
never runs. -/
structure ActionOut where
  cache : CacheDoc
  feeTxs : List String
  uploads : List String
  attempts : List Request
  saves : List CacheDoc
  errors : List String
  aborted : Option String
deriving DecidableEq, Repr

/-- The upload action on an already-loaded cache document. -/
def uploadAction (o : Oracles) (submit : Request → Except String String)
    (files : List String) (c : CacheDoc) : ActionOut :=
  let u := uploadPhase o files c
  match u.aborted with
  | some e =>
    { cache := u.cache, feeTxs := u.feeTxs, uploads := u.uploads,
      attempts := [], saves := u.saves, errors := u.errors, aborted := some e }
  | none =>
    let b := batchPhase submit u.cache
    { cache := b.cache, feeTxs := u.feeTxs, uploads := u.uploads,
      attempts := b.attempts, saves := u.saves ++ b.saves,
      errors := u.errors ++ b.errors, aborted := none }

/-! ## Verifier -/

/-- Modelled from the spec: `fromUTF8Array` is imported from `helper.ts`,
which is not among the sources; the spec describes the decode of each
fixed-width field as a "UTF-8 byte buffer, trimmed of trailing padding".
Modelled for single-byte (ASCII) code points: trailing zero padding bytes are
dropped and each remaining byte becomes one character. -/
def fromUTF8Array (data : List Nat) : String :=
  String.mk (((data.reverse.dropWhile (fun b => b = 0)).reverse).map Char.ofNat)

/-- Anchored match of a regular-expression pattern against the front of a
subject, for the fragment of ECMAScript regular expressions consisting of
literal characters and the `.` wildcard (which matches any single
character). -/
def regexAccepts : List Char → List Char → Bool
  | [], _ => true
  | _ :: _, [] => false
  | p :: ps, c :: cs => (p = '.' || p = c) && regexAccepts ps cs

/-- Unanchored regular-expression search: the pattern matches at some
position of the subject. -/
def regexSearch (pattern subject : List Char) : Bool :=
  subject.tails.any (fun t => regexAccepts pattern t)

/-- Truthiness of `subject.match(pattern)` for a string pattern:
ECMAScript converts the string into a regular expression and searches the
subject.  Modelled for patterns made of literal characters and the `.`
wildcard (the only constructs the claims need). -/
def jsMatchB (subject pattern : String) : Bool :=
  regexSearch pattern.toList subject.toList

/-- Truthiness of `subject.match(pattern)` when the pattern may be `undefined`:
`new RegExp(undefined)` is the empty pattern, which matches everything. -/
def jsMatchOptB (subject : String) (pattern : Option String) : Bool :=
  match pattern with
  | none => true
  | some p => jsMatchB subject p

/-- The spec's comparison, for contrast with the code's: substring
containment of the cache value in the decoded field. -/
def substringContains (subject pattern : String) : Prop :=
  pattern.toList <:+: subject.toList

instance (subject pattern : String) : Decidable (substringContains subject pattern) := by
  unfold substringContains; infer_instance

/-- The verify loop, positionally over the cache entries (`keys[i]` is the
key of the `i`-th entry and object keys are distinct, so
`cachedContent.items[key]` is the `i`-th record).  For entry `i`:
slice the record at `configArrayStart + 4 + configLineSize * i`, decode
`name` from record bytes `[4:36]` and `uri` from `[40:240]`, and clear
`onChain` when either `name.match(cacheItem.name)` or
`uri.match(cacheItem.link)` fails. -/
def verifyLoop (data : List Nat) : Nat → List (String × Item) → List (String × Item)
  | _, [] => []
  | i, (k, it) :: rest =>
    let thisSlice := jsSlice (configArrayStart + 4 + configLineSize * i)
      (configArrayStart + 4 + configLineSize * (i + 1)) data
    let name := fromUTF8Array (jsSlice 4 36 thisSlice)
    let uri := fromUTF8Array (jsSlice 40 240 thisSlice)
    let it' :=
      if jsMatchB name it.name = false ∨ jsMatchOptB uri it.link = false then
        { it with onChain := false }
      else it
    (k, it') :: verifyLoop data (i + 1) rest

/-- The verify action's reconciliation pass over the whole cache document:
it reads the ledger account bytes once and only ever writes `onChain`. -/
def verifyPass (data : List Nat) (c : CacheDoc) : CacheDoc :=
  { c with items := verifyLoop data 0 c.items }

/-! ## Cache file loading -/

/-- The parsed cache file as found on disk; either field may be absent. -/
structure RawDoc where
  program : Option ProgramState
  items : Option (List (String × Item))
deriving DecidableEq, Repr

/-- The upload action's load:
`savedContent = fs.existsSync(cachePath) ? JSON.parse(...) : undefined`,
`cacheContent = savedContent || {}`, then the missing `program` / `items`
fields are initialized to `{}`. -/
def uploadLoadCache (saved : Option RawDoc) : CacheDoc :=
  match saved with
  | none => { program := { uuid := none, config := none }, items := [] }
  | some d =>
    { program := d.program.getD { uuid := none, config := none },
      items := d.items.getD [] }

/-- The verify action's load and first dereference:
`cachedContent = fs.existsSync(cachePath) ? JSON.parse(...) : undefined`
followed immediately by `new PublicKey(cachedContent.program.config)`.
When the file is absent, reading `.program` of `undefined` throws a
`TypeError`; there is no `|| {}` fallback here. -/
def verifyLoadConfig (saved : Option RawDoc) : Except String String :=
  match saved with
  | none => Except.error "TypeError: cannot read property of undefined"
  | some d =>
    match d.program with
    | none => Except.error "TypeError: cannot read property of undefined"
    | some p =>
      match p.config with
      | none => Except.error "TypeError: invalid public key input"
      | some cfg => Except.ok cfg

/-! ## The cache invariant -/

/-- A present, non-empty content address. -/
def goodLink (l : Option String) : Prop :=
  l ≠ none ∧ l ≠ some ""

instance (l : Option String) : Decidable (goodLink l) := by
  unfold goodLink; infer_instance

/-- The spec's §3 invariant on one record: registered on the ledger only
with a present, non-empty `link`. -/
def ItemInvariant (it : Item) : Prop :=
  it.onChain = true → goodLink it.link

instance (it : Item) : Decidable (ItemInvariant it) := by
  unfold ItemInvariant; infer_instance

/-- The invariant over a cache document. -/
def Invariant (c : CacheDoc) : Prop :=
  ∀ p ∈ c.items, ItemInvariant p.2

instance (c : CacheDoc) : Decidable (Invariant c) := by
  unfold Invariant; infer_instance

/-- Every record of the item map carries a present, non-empty link. -/
def AllGood (items : List (String × Item)) : Prop :=
  ∀ p ∈ items, goodLink p.2.link

instance (items : List (String × Item)) : Decidable (AllGood items) := by
  unfold AllGood; infer_instance

/-! # Theorems -/

/-! ## C6: batch boundaries for 2001 items -/

/-- C6: for a cache with exactly 2001 items the batch registration phase
splits the position set `0 .. 2000` into exactly 3 macro-groups of sizes
1000, 1000 and 1 (in order), and the first macro-group into exactly 100
micro-batches of size 10. -/
theorem length_jsSlice (a b : Nat) (l : List α) :
    (jsSlice a b l).length = min (b - a) (l.length - a) := by
  simp [jsSlice]

theorem batch_split_2001 :
    (chunks (List.range 2001) 1000).map List.length = [1000, 1000, 1] ∧
    (microBatches ((chunks (List.range 2001) 1000).headD [])).map List.length
      = List.replicate 100 10 := by
  have hchunks : chunks (List.range 2001) 1000
      = [jsSlice 0 1000 (List.range 2001), jsSlice 1000 2000 (List.range 2001),
         jsSlice 2000 3000 (List.range 2001)] := by
    have h3 : ((List.range 2001).length + 1000 - 1) / 1000 = 3 := by
      rw [List.length_range]
    have hr : List.range 3 = [0, 1, 2] := by decide
    rw [chunks, h3, hr]
    simp
  constructor
  · rw [hchunks]
    simp only [List.map_cons, List.map_nil, length_jsSlice, List.length_range]
    norm_num
  · have hg0 : (chunks (List.range 2001) 1000).headD []
        = jsSlice 0 1000 (List.range 2001) := by rw [hchunks, List.headD_cons]
    have hg0len : (jsSlice 0 1000 (List.range 2001)).length = 1000 := by
      rw [length_jsSlice, List.length_range]; omega
    rw [hg0, microBatches, hg0len, microOffsets]
    have h100 : (1000 + 9) / 10 = 100 := by norm_num
    rw [h100]
    rw [List.map_map, List.map_map]
    refine List.eq_replicate_iff.mpr ⟨by simp, ?_⟩
    intro b hb
    simp only [List.mem_map, List.mem_range] at hb
    obtain ⟨k, hk, rfl⟩ := hb
    simp only [Function.comp_apply, length_jsSlice, hg0len]
    omega

/-! ## C10: the environment switch falls through -/

/-- C10: the `switch` over the cluster URL has no `break`s, so each of the
three recognized URLs falls through to the final `env = 'devnet'`
assignment, and any other URL leaves `env` undefined. -/
theorem env_switch_fallthrough :
    envAfterSwitch MAINNET_CLUSTER_URL = some "devnet" ∧
    envAfterSwitch TESTNET_CLUSTER_URL = some "devnet" ∧
    envAfterSwitch DEVNET_CLUSTER_URL = some "devnet" ∧
    ∀ url : String, url ≠ MAINNET_CLUSTER_URL → url ≠ TESTNET_CLUSTER_URL →
      url ≠ DEVNET_CLUSTER_URL → envAfterSwitch url = none := by
  refine ⟨by decide, by decide, by decide, ?_⟩
  intro url h1 h2 h3
  simp [envAfterSwitch, switchCase, beq_iff_eq, h1, h2, h3]

/-- Witness for `env_switch_fallthrough`: a URL different from all three
recognized cluster URLs gets no environment tag. -/
theorem env_switch_fallthrough_witness :
    ("http://localhost:8899/" : String) ≠ MAINNET_CLUSTER_URL ∧
    envAfterSwitch "http://localhost:8899/" = none :=
  ⟨by decide,
    env_switch_fallthrough.2.2.2 "http://localhost:8899/" (by decide) (by decide)
      (by decide)⟩

/-! ## C2: the metadata-record lookup never matches -/

/-- C2 (code bug): the metadata file is attached to the storage request
under the name `metadata.json`, but the response lookup searches for
`manifest.json`.  On a response that echoes the uploaded filenames, the
lookup finds nothing, so `link` stays undefined instead of becoming the
metadata record's `https://arweave.net/<transactionId>`. -/
theorem metadata_lookup_mismatch :
    uploadedFileNames = ["image.png", "metadata.json"] ∧
    (([⟨"image.png", "imgTx"⟩, ⟨"metadata.json", "metaTx"⟩] : List StorageMsg).find?
      (fun m => m.filename = "manifest.json")) = none ∧
    metadataLinkOfMessages none
      [⟨"image.png", "imgTx"⟩, ⟨"metadata.json", "metaTx"⟩] = none ∧
    (([⟨"image.png", "imgTx"⟩, ⟨"metadata.json", "metaTx"⟩] : List StorageMsg).find?
      (fun m => m.filename = "metadata.json"))
        = some ⟨"metadata.json", "metaTx"⟩ := by decide

/-! ## C9: missing cache file -/

/-- C9 counterexample: the verify subcommand does not proceed on a missing
cache file — dereferencing the undefined load result raises. -/
theorem verify_missing_cache_raises :
    (verifyLoadConfig none).isOk = false := by decide

/-- C9 (amended): only the upload subcommand substitutes an empty document
(`savedContent || \x7b\x7d`) for a missing cache file; the verify subcommand
(like `set_start_date`, `create_candy_machine` and `mint_one_token`, which
share the same load-and-dereference shape) raises a `TypeError` instead. -/
theorem cache_load_missing_file :
    uploadLoadCache none
      = { program := { uuid := none, config := none }, items := [] } ∧
    verifyLoadConfig none
      = Except.error "TypeError: cannot read property of undefined" := ⟨rfl, rfl⟩

/-! ## C5: the verifier's comparison -/

set_option maxRecDepth 4000 in
/-- C5 counterexample: the verifier compares with
`String.prototype.match`, which treats the cache value as a regular
expression, not as a substring.  With cached `remoteAddress` `"a.c"` and a
ledger record whose decoded uri is `"abc"`, substring containment fails —
so the claim requires `registeredOnLedger` to be cleared — but the code's
regex match succeeds (`.` matches `b`) and the record is left unchanged. -/
theorem verify_match_is_regex_counterexample :
    let record : List Nat :=
      List.replicate 4 0 ++ ([110] ++ List.replicate 31 0)
        ++ List.replicate 4 0 ++ ([97, 98, 99] ++ List.replicate 197 0)
    let data : List Nat := List.replicate (configArrayStart + 4) 0 ++ record
    let items : List (String × Item) :=
      [("0", { link := some "a.c", name := "n", onChain := true })]
    (¬ substringContains
      (fromUTF8Array (jsSlice 40 240 (jsSlice (configArrayStart + 4 + configLineSize * 0)
        (configArrayStart + 4 + configLineSize * (0 + 1)) data))) "a.c") ∧
    fromUTF8Array (jsSlice 40 240 (jsSlice (configArrayStart + 4 + configLineSize * 0)
        (configArrayStart + 4 + configLineSize * (0 + 1)) data)) = "abc" ∧
    verifyLoop data 0 items = items := by decide

/-- C5 (amended): for every cached entry `j` (with the loop counter starting
at `i`), the verifier decodes the record at byte offset
`configArrayStart + 4 + configLineSize * (i + j)` — name from record bytes
`[4:36]`, uri from `[40:240]` — compares the decoded fields against the
cache's `name`/`link` by *regular-expression search* with the cache value as
the pattern (which coincides with substring containment only for
metacharacter-free values), keeps the record unchanged when both match and
clears `onChain` on any mismatch; the key, `link` and `name` fields and the
`program` part of the document are never modified, and the ledger bytes are
only read. -/
theorem verify_pointwise_spec :
    (∀ (data : List Nat) (items : List (String × Item)) (i j : Nat),
      (verifyLoop data i items).get? j = (items.get? j).map (fun p =>
        (p.1,
          if jsMatchB
              (fromUTF8Array (jsSlice 4 36 (jsSlice
                (configArrayStart + 4 + configLineSize * (i + j))
                (configArrayStart + 4 + configLineSize * (i + j + 1)) data)))
              p.2.name
            && jsMatchOptB
              (fromUTF8Array (jsSlice 40 240 (jsSlice
                (configArrayStart + 4 + configLineSize * (i + j))
                (configArrayStart + 4 + configLineSize * (i + j + 1)) data)))
              p.2.link
          then p.2
          else { p.2 with onChain := false }))) ∧
    (∀ (data : List Nat) (c : CacheDoc), (verifyPass data c).program = c.program) := by
  constructor
  · intro data items
    induction items with
    | nil => intro i j; simp [verifyLoop]
    | cons p rest ih =>
      intro i j
      obtain ⟨k, it⟩ := p
      cases j with
      | zero =>
        simp only [verifyLoop, List.get?_cons_zero, Option.map_some', Nat.add_zero]
        generalize jsMatchB (fromUTF8Array _) it.name = a
        generalize jsMatchOptB (fromUTF8Array _) it.link = b
        cases a <;> cases b <;> simp
      | succ j =>
        simp only [verifyLoop, List.get?_cons_succ]
        have hidx : i + (j + 1) = i + 1 + j := by omega
        rw [hidx]
        exact ih (i + 1) j
  · intro data c
    rfl

/-! ## C8: building the item set -/

/-- Every file kept by the fresh-listing pass has an unseen key and is the
first element of the listing bearing its key. -/
theorem dedupPassNew_keeps_first (seen files : List String) :
    ∀ y ∈ (dedupPassNew seen files).2,
      fileKey y ∉ seen ∧ files.find? (fun z => fileKey z == fileKey y) = some y := by
  induction files generalizing seen with
  | nil => intro y hy; simp [dedupPassNew] at hy
  | cons f fs ih =>
    intro y hy
    by_cases h : fileKey f ∈ seen
    · simp only [dedupPassNew, if_pos h] at hy
      obtain ⟨hns, hfind⟩ := ih seen y hy
      refine ⟨hns, ?_⟩
      rw [List.find?_cons_of_neg, hfind]
      simp only [beq_iff_eq]
      intro hk; exact hns (hk ▸ h)
    · simp only [dedupPassNew, if_neg h, List.mem_cons] at hy
      rcases hy with rfl | hy
      · refine ⟨h, ?_⟩
        rw [List.find?_cons_of_pos]
        simp
      · obtain ⟨hns, hfind⟩ := ih (fileKey f :: seen) y hy
        have hne : fileKey y ≠ fileKey f := fun hk => hns (by simp [hk])
        refine ⟨fun hs => hns (by simp [hs]), ?_⟩
        rw [List.find?_cons_of_neg, hfind]
        simp only [beq_iff_eq]
        exact fun hk => hne hk.symm

/-- The keys of the files kept by the fresh-listing pass are pairwise
distinct. -/
theorem dedupPassNew_keys_nodup (seen files : List String) :
    ((dedupPassNew seen files).2.map fileKey).Nodup := by
  induction files generalizing seen with
  | nil => simp [dedupPassNew]
  | cons f fs ih =>
    by_cases h : fileKey f ∈ seen
    · simp only [dedupPassNew, if_pos h]
      exact ih seen
    · simp only [dedupPassNew, if_neg h, List.map_cons, List.nodup_cons]
      refine ⟨?_, ih _⟩
      intro hmem
      obtain ⟨y, hy, hky⟩ := List.mem_map.mp hmem
      exact (dedupPassNew_keeps_first _ _ y hy).1 (by simp [hky])

/-- Everything in the `seen` set after the fresh-listing pass was either
seen before or is the key of some listed file. -/
theorem dedupPassNew_fst_sub (seen files : List String) (k : String) :
    k ∈ (dedupPassNew seen files).1 → k ∈ seen ∨ ∃ f ∈ files, fileKey f = k := by
  induction files generalizing seen with
  | nil => intro hk; simp only [dedupPassNew] at hk; exact Or.inl hk
  | cons f fs ih =>
    intro hk
    by_cases h : fileKey f ∈ seen
    · simp only [dedupPassNew, if_pos h] at hk
      rcases ih seen hk with hs | ⟨g, hg, hkg⟩
      · exact Or.inl hs
      · exact Or.inr ⟨g, List.mem_cons_of_mem _ hg, hkg⟩
    · simp only [dedupPassNew, if_neg h] at hk
      rcases ih (fileKey f :: seen) hk with hs | ⟨g, hg, hkg⟩
      · rcases List.mem_cons.mp hs with rfl | hs'
        · exact Or.inr ⟨f, List.mem_cons_self _ _, rfl⟩
        · exact Or.inl hs'
      · exact Or.inr ⟨g, List.mem_cons_of_mem _ hg, hkg⟩

/-- Every cache key that is still unseen after the fresh-listing pass is
appended (as `key + '.png'`) by the cache pass. -/
theorem dedupPassCache_adds (cached : List String) :
    ∀ (seen : List String) (e : String), e ∈ cached → e ∉ seen →
      (e ++ ".png") ∈ dedupPassCache seen cached := by
  induction cached with
  | nil => intro seen e he _; simp at he
  | cons f fs ih =>
    intro seen e he hns
    by_cases hef : e = f
    · subst hef
      rw [dedupPassCache, if_neg hns]
      exact List.mem_cons_self _ _
    · have he' : e ∈ fs := by
        rcases List.mem_cons.mp he with h | h
        · exact absurd h hef
        · exact h
      by_cases hf : f ∈ seen
      · rw [dedupPassCache, if_pos hf]
        exact ih seen e he' hns
      · rw [dedupPassCache, if_neg hf]
        refine List.mem_cons_of_mem _ (ih (f :: seen) e he' ?_)
        intro hc
        rcases List.mem_cons.mp hc with h | h
        · exact hef h
        · exact hns h

/-- C8: the item set is deduplicated by index in an insertion-order
preserving pass: the kept fresh files have pairwise distinct keys, each kept
file is the first occurrence of its key in the fresh listing (so a duplicate
basename never causes a second upload for that index), and every index
present in the cache but absent from the fresh listing is appended as
`index + '.png'` so it is still processed. -/
theorem itemset_dedup_spec :
    ∀ (files cached : List String),
      (((dedupPassNew [] files).2.map fileKey).Nodup) ∧
      (∀ y ∈ (dedupPassNew [] files).2,
        files.find? (fun z => fileKey z == fileKey y) = some y) ∧
      (∀ e ∈ cached, (¬ ∃ f ∈ files, fileKey f = e) →
        (e ++ ".png") ∈ newFilesOf files cached) := by
  intro files cached
  refine ⟨dedupPassNew_keys_nodup [] files, ?_, ?_⟩
  · intro y hy; exact (dedupPassNew_keeps_first [] files y hy).2
  · intro e he hnotin
    have hseen : e ∉ (dedupPassNew [] files).1 := by
      intro hin
      rcases dedupPassNew_fst_sub [] files e hin with hs | hex
      · simp at hs
      · exact hnotin hex
    simp only [newFilesOf]
    exact List.mem_append_right _ (dedupPassCache_adds cached _ e he hseen)

/-- Witness for `itemset_dedup_spec`: with fresh files `d/0.png`, `e/0.png`
(duplicate basename `0`) and `d/0.json`, and cached index `7` absent from
the listing, the file `7.png` is appended. -/
theorem itemset_dedup_spec_witness :
    ("7" ∈ (["7"] : List String)) ∧
    (¬ ∃ f ∈ (["d/0.png", "e/0.png", "d/0.json"] : List String), fileKey f = "7") ∧
    ("7" ++ ".png") ∈ newFilesOf ["d/0.png", "e/0.png", "d/0.json"] ["7"] :=
  ⟨by decide, by decide,
    (itemset_dedup_spec ["d/0.png", "e/0.png", "d/0.json"] ["7"]).2.2 "7"
      (by decide) (by decide)⟩

/-! ## C7: micro-batch submission -/

/-- The request of one micro-batch body, as a closed form: present exactly
when not every position is already `onChain`. -/
theorem microStep_attempted (submit : Request → Except String String)
    (keys : List String) (items : List (String × Item)) (indexes : List Nat) :
    (microStep submit keys items indexes).attempted =
      (if (indexes.filter fun i => ((items.getD i default).2).onChain).length
          ≠ indexes.length
       then some { ind := keys.getD (indexes.headD 0) "",
                   lines := indexes.map (fun i =>
                     { uri := ((items.getD i default).2).link,
                       name := ((items.getD i default).2).name }) }
       else none) := by
  by_cases hc : (indexes.filter fun i => ((items.getD i default).2).onChain).length
      ≠ indexes.length
  · simp only [microStep, if_pos hc]
    split <;> rfl
  · simp only [microStep, if_neg hc]

/-- A slice of an ascending list is ascending. -/
theorem pairwise_lt_jsSlice (a b : Nat) (l : List Nat)
    (h : l.Pairwise (· < ·)) : (jsSlice a b l).Pairwise (· < ·) := by
  exact h.sublist ((List.take_sublist _ _).trans (List.drop_sublist _ _))

/-- C7: a micro-batch is skipped (no `addConfigLines` call) iff every
position in it is already `onChain`; otherwise the request carries, for
every position of the micro-batch, its `(link, name)` pair in micro-batch
order, and is keyed by `keys[indexes[0]]` as the insertion point; and every
micro-batch produced by slicing a macro-group of ascending positions lists
its positions in ascending order. -/
theorem microStep_request_spec :
    ∀ (submit : Request → Except String String) (keys : List String)
      (items : List (String × Item)) (indexes : List Nat),
      ((microStep submit keys items indexes).attempted = none ↔
        ∀ i ∈ indexes, ((items.getD i default).2).onChain = true) ∧
      (∀ req, (microStep submit keys items indexes).attempted = some req →
        req.ind = keys.getD (indexes.headD 0) "" ∧
        req.lines = indexes.map (fun i =>
          { uri := ((items.getD i default).2).link,
            name := ((items.getD i default).2).name })) ∧
      (∀ (n : Nat), ∀ gl ∈ chunks (List.range n) 1000, ∀ off : Nat,
        List.Pairwise (· < ·) (jsSlice off (off + 10) gl)) := by
  intro submit keys items indexes
  have hfilter := List.filter_length_eq_length
    (p := fun i => ((items.getD i default).2).onChain) (l := indexes)
  refine ⟨?_, ?_, ?_⟩
  · rw [microStep_attempted]
    by_cases hc : (indexes.filter fun i => ((items.getD i default).2).onChain).length
        ≠ indexes.length
    · rw [if_pos hc]
      exact ⟨fun h => absurd h (by simp), fun hall => absurd (hfilter.mpr hall) hc⟩
    · rw [if_neg hc]
      exact ⟨fun _ => hfilter.mp (not_not.mp hc), fun _ => rfl⟩
  · intro req hreq
    rw [microStep_attempted] at hreq
    by_cases hc : (indexes.filter fun i => ((items.getD i default).2).onChain).length
        ≠ indexes.length
    · rw [if_pos hc] at hreq
      injection hreq with hreq
      subst hreq
      exact ⟨rfl, rfl⟩
    · rw [if_neg hc] at hreq
      exact absurd hreq (by simp)
  · intro n gl hgl off
    apply pairwise_lt_jsSlice
    simp only [chunks, List.mem_map] at hgl
    obtain ⟨idx, _, rfl⟩ := hgl
    exact pairwise_lt_jsSlice _ _ _ (List.pairwise_lt_range n)

/-- Witness for `microStep_request_spec`: a singleton micro-batch whose item
is not yet `onChain` is submitted, keyed by its first position's key, with
its `(link, name)` line. -/
theorem microStep_request_spec_witness :
    ((microStep (fun _ => Except.ok "tx") ["0"]
        [("0", { link := some "L", name := "N", onChain := false })] [0]).attempted
      = some { ind := "0", lines := [{ uri := some "L", name := "N" }] }) ∧
    (({ ind := "0", lines := [{ uri := some "L", name := "N" }] } : Request).ind
        = (["0"] : List String).getD (([0] : List Nat).headD 0) "" ∧
      ({ ind := "0", lines := [{ uri := some "L", name := "N" }] } : Request).lines
        = ([0] : List Nat).map (fun i =>
            { uri := ((([("0", { link := some "L", name := "N", onChain := false })]
                  : List (String × Item)).getD i default).2).link,
              name := ((([("0", { link := some "L", name := "N", onChain := false })]
                  : List (String × Item)).getD i default).2).name })) :=
  ⟨by decide,
    (microStep_request_spec (fun _ => Except.ok "tx") ["0"]
      [("0", { link := some "L", name := "N", onChain := false })] [0]).2.1
      { ind := "0", lines := [{ uri := some "L", name := "N" }] } (by decide)⟩

/-! ## C3: micro-batch failure handling -/

/-- C3 counterexample: a single macro-group with two micro-batches (11
items, none on chain) and a submitter that rejects the first micro-batch but
would accept the second.  Only one submission is ever attempted: the
rejection aborts the group loop, the second micro-batch's item stays
unmarked even though its submission would have succeeded, and the error is
reported by the surrounding catch. -/
theorem batch_abort_counterexample :
    (batchPhase
        (fun req => if req.ind = "0" then Except.error "boom" else Except.ok "tx")
        { program := { uuid := some "u", config := some "cfg" },
          items := [("0", { link := some "L", name := "N", onChain := false }),
            ("1", { link := some "L", name := "N", onChain := false }),
            ("2", { link := some "L", name := "N", onChain := false }),
            ("3", { link := some "L", name := "N", onChain := false }),
            ("4", { link := some "L", name := "N", onChain := false }),
            ("5", { link := some "L", name := "N", onChain := false }),
            ("6", { link := some "L", name := "N", onChain := false }),
            ("7", { link := some "L", name := "N", onChain := false }),
            ("8", { link := some "L", name := "N", onChain := false }),
            ("9", { link := some "L", name := "N", onChain := false }),
            ("10", { link := some "L", name := "N", onChain := false })] }).attempts.length
      = 1 ∧
    getItem (batchPhase
        (fun req => if req.ind = "0" then Except.error "boom" else Except.ok "tx")
        { program := { uuid := some "u", config := some "cfg" },
          items := [("0", { link := some "L", name := "N", onChain := false }),
            ("1", { link := some "L", name := "N", onChain := false }),
            ("2", { link := some "L", name := "N", onChain := false }),
            ("3", { link := some "L", name := "N", onChain := false }),
            ("4", { link := some "L", name := "N", onChain := false }),
            ("5", { link := some "L", name := "N", onChain := false }),
            ("6", { link := some "L", name := "N", onChain := false }),
            ("7", { link := some "L", name := "N", onChain := false }),
            ("8", { link := some "L", name := "N", onChain := false }),
            ("9", { link := some "L", name := "N", onChain := false }),
            ("10", { link := some "L", name := "N", onChain := false })] }).cache.items "10"
      = some { link := some "L", name := "N", onChain := false } ∧
    (batchPhase
        (fun req => if req.ind = "0" then Except.error "boom" else Except.ok "tx")
        { program := { uuid := some "u", config := some "cfg" },
          items := [("0", { link := some "L", name := "N", onChain := false }),
            ("1", { link := some "L", name := "N", onChain := false }),
            ("2", { link := some "L", name := "N", onChain := false }),
            ("3", { link := some "L", name := "N", onChain := false }),
            ("4", { link := some "L", name := "N", onChain := false }),
            ("5", { link := some "L", name := "N", onChain := false }),
            ("6", { link := some "L", name := "N", onChain := false }),
            ("7", { link := some "L", name := "N", onChain := false }),
            ("8", { link := some "L", name := "N", onChain := false }),
            ("9", { link := some "L", name := "N", onChain := false }),
            ("10", { link := some "L", name := "N", onChain := false })] }).errors
      = ["boom"] ∧
    ((if ({ ind := "10", lines := [{ uri := some "L", name := "N" }] } : Request).ind = "0"
      then Except.error "boom" else (Except.ok "tx" : Except String String)).isOk
        = true) := by decide

/-- The error of one micro-batch body comes from its own submission. -/
theorem microStep_error_eq (submit : Request → Except String String)
    (keys : List String) (items : List (String × Item)) (indexes : List Nat) :
    (microStep submit keys items indexes).error =
      (match (microStep submit keys items indexes).attempted with
       | none => none
       | some req =>
         match submit req with
         | Except.error e => some e
         | Except.ok _ => none) := by
  rw [microStep_attempted]
  simp only [microStep]
  by_cases hc : (indexes.filter fun i => ((items.getD i default).2).onChain).length
      ≠ indexes.length
  · simp only [if_pos hc]
    split <;> rfl
  · simp only [if_neg hc]

/-- A failing micro-batch's request was attempted and rejected. -/
theorem microStep_error_spec (submit : Request → Except String String)
    (keys : List String) (items : List (String × Item)) (indexes : List Nat)
    (e : String) (h : (microStep submit keys items indexes).error = some e) :
    ∃ req, (microStep submit keys items indexes).attempted = some req ∧
      submit req = Except.error e := by
  rw [microStep_error_eq] at h
  cases hatt : (microStep submit keys items indexes).attempted with
  | none =>
    rw [hatt] at h
    exact absurd h (by simp)
  | some req =>
    rw [hatt] at h
    have h1 : (match submit req with
        | Except.error e => some e
        | Except.ok _ => none) = some e := h
    cases hsub : submit req with
    | error e1 =>
      have h2 : some e1 = some e := by rw [hsub] at h1; exact h1
      injection h2 with h2
      subst h2
      exact ⟨req, rfl, hsub⟩
    | ok tx =>
      rw [hsub] at h1
      exact absurd h1 (by simp)

/-- C3 (amended): when a micro-batch's submission fails, that micro-batch's
items are left exactly as they were; the rejection aborts the remaining
micro-batches of the same macro-group (the failing submission is the last
one attempted in that group), and the error is contained by the
orchestrating try/catch/finally, whose final flush always persists the final
document. -/
theorem batch_failure_containment :
    (∀ (submit : Request → Except String String) (keys : List String)
        (items : List (String × Item)) (indexes : List Nat),
      (microStep submit keys items indexes).error.isSome →
        (microStep submit keys items indexes).items = items) ∧
    (∀ (submit : Request → Except String String) (keys : List String)
        (group offs : List Nat) (items : List (String × Item)) (e : String),
      (runGroupOffsets submit keys group offs items).error = some e →
        ∃ req,
          (runGroupOffsets submit keys group offs items).attempts.getLast?
            = some req ∧
          submit req = Except.error e) ∧
    (∀ (submit : Request → Except String String) (c : CacheDoc),
      ((batchPhase submit c).saves).getLast? = some (batchPhase submit c).cache) := by
  refine ⟨?_, ?_, ?_⟩
  · intro submit keys items indexes
    simp only [microStep]
    by_cases hc : (indexes.filter fun i => ((items.getD i default).2).onChain).length
        ≠ indexes.length
    · simp only [if_pos hc]
      split
      · intro _; rfl
      · intro hfalse; simp at hfalse
    · simp only [if_neg hc]
      intro _; trivial
  · intro submit keys group offs
    induction offs with
    | nil => intro items e h; simp [runGroupOffsets] at h
    | cons off rest ih =>
      intro items e h
      simp only [runGroupOffsets] at h ⊢
      cases hme : (microStep submit keys items (jsSlice off (off + 10) group)).error with
      | some e1 =>
        rw [hme] at h
        have h1 : some e1 = some e := h
        injection h1 with h1
        subst h1
        obtain ⟨req, hatt, hsub⟩ := microStep_error_spec submit keys items
          (jsSlice off (off + 10) group) e1 hme
        refine ⟨req, ?_, hsub⟩
        show ((microStep submit keys items (jsSlice off (off + 10) group)).attempted.toList).getLast?
          = some req
        rw [hatt]
        rfl
      | none =>
        rw [hme] at h
        have h1 : (runGroupOffsets submit keys group rest
            (microStep submit keys items (jsSlice off (off + 10) group)).items).error
            = some e := h
        obtain ⟨req, hlast, hsub⟩ := ih _ e h1
        refine ⟨req, ?_, hsub⟩
        show ((microStep submit keys items (jsSlice off (off + 10) group)).attempted.toList
            ++ (runGroupOffsets submit keys group rest
              (microStep submit keys items (jsSlice off (off + 10) group)).items).attempts).getLast?
          = some req
        have hne : (runGroupOffsets submit keys group rest
            (microStep submit keys items (jsSlice off (off + 10) group)).items).attempts
            ≠ [] := by
          intro hnil
          rw [hnil] at hlast
          simp at hlast
        rw [List.getLast?_append_of_ne_nil _ hne]
        exact hlast
  · intro submit c
    simp only [batchPhase]
    exact List.getLast?_concat _

/-- Witness for `batch_failure_containment`: a failing singleton micro-batch
leaves its item record untouched. -/
theorem batch_failure_containment_witness :
    (microStep (fun _ => Except.error "boom") ["0"]
        [("0", { link := some "L", name := "N", onChain := false })] [0]).items
      = [("0", { link := some "L", name := "N", onChain := false })] :=
  batch_failure_containment.1 (fun _ => Except.error "boom") ["0"]
    [("0", { link := some "L", name := "N", onChain := false })] [0] (by decide)

/-! ## C4: idempotence of the upload step -/

/-- Elements of a slice belong to the sliced list. -/
theorem jsSlice_subset (a b : Nat) (l : List α) :
    ∀ x ∈ jsSlice a b l, x ∈ l := fun _ hx =>
  ((List.take_sublist _ _).trans (List.drop_sublist _ _)).subset hx

/-- An item whose cached record has a truthy `link` is skipped entirely when
the program `uuid` is also truthy: no config call, no fee payment, no
storage upload, no cache write. -/
theorem processItem_skip (o : Oracles) (i : Nat) (image : String)
    (r : UploadResult)
    (h1 : jsFalsyOpt ((getItem r.cache.items
      (replaceFirst (jsBasename image) ".png")).bind Item.link) = false)
    (h2 : jsFalsyOpt r.cache.program.uuid = false) :
    processItem o i image r = r := by
  simp only [processItem, h1, h2, Bool.or_self, Bool.false_eq_true, if_false]

/-- The per-item loop is the identity when every image is skipped. -/
theorem uploadLoop_skip (o : Oracles) :
    ∀ (imgs : List String) (i : Nat) (r : UploadResult),
      (∀ f ∈ imgs, jsFalsyOpt ((getItem r.cache.items
        (replaceFirst (jsBasename f) ".png")).bind Item.link) = false) →
      jsFalsyOpt r.cache.program.uuid = false →
      uploadLoop o i imgs r = r := by
  intro imgs
  induction imgs with
  | nil => intro i r _ _; rfl
  | cons f fs ih =>
    intro i r hall huuid
    simp only [uploadLoop]
    rw [processItem_skip o i f r (hall f (List.mem_cons_self _ _)) huuid]
    by_cases hab : r.aborted.isSome
    · simp [hab]
    · simp only [hab, if_false, Bool.false_eq_true]
      exact ih (i + 1) r (fun g hg => hall g (List.mem_cons_of_mem _ hg)) huuid

/-- A micro-batch all of whose positions are already `onChain` is skipped
without any submission or cache write. -/
theorem microStep_skip (submit : Request → Except String String)
    (keys : List String) (items : List (String × Item)) (indexes : List Nat)
    (hall : ∀ i ∈ indexes, ((items.getD i default).2).onChain = true) :
    microStep submit keys items indexes
      = { items := items, attempted := none, saved := false, error := none } := by
  have hlen : (indexes.filter fun i => ((items.getD i default).2).onChain).length
      = indexes.length := List.filter_length_eq_length.mpr hall
  simp only [microStep]
  rw [if_neg (fun hne => hne hlen)]

/-- A macro-group all of whose positions are already `onChain` runs without
any submissions, saves or errors. -/
theorem runGroupOffsets_skip (submit : Request → Except String String)
    (keys : List String) (group : List Nat) :
    ∀ (offs : List Nat) (items : List (String × Item)),
      (∀ i ∈ group, ((items.getD i default).2).onChain = true) →
      runGroupOffsets submit keys group offs items
        = { items := items, attempts := [], saves := [], error := none } := by
  intro offs
  induction offs with
  | nil => intro items _; rfl
  | cons off rest ih =>
    intro items hall
    simp only [runGroupOffsets]
    rw [microStep_skip submit keys items _
      (fun i hi => hall i (jsSlice_subset _ _ _ i hi))]
    rw [ih items hall]
    rfl

/-- All macro-groups of an all-`onChain` cache are skipped. -/
theorem runGroupsLoop_skip (submit : Request → Except String String)
    (keys : List String) :
    ∀ (groups : List (List Nat)) (items : List (String × Item)),
      (∀ g ∈ groups, ∀ i ∈ g, ((items.getD i default).2).onChain = true) →
      runGroupsLoop submit keys groups items = (items, [], [], []) := by
  intro groups
  induction groups with
  | nil => intro items _; rfl
  | cons g gs ih =>
    intro items hall
    simp only [runGroupsLoop, runGroup]
    rw [runGroupOffsets_skip submit keys g _ items (hall g (List.mem_cons_self _ _))]
    rw [ih items (fun g' hg' => hall g' (List.mem_cons_of_mem _ hg'))]
    rfl

/-- The batch phase of a fully registered cache only performs the final
flush. -/
theorem batchPhase_skip (submit : Request → Except String String)
    (c : CacheDoc) (hall : ∀ p ∈ c.items, p.2.onChain = true) :
    batchPhase submit c
      = { cache := c, attempts := [], saves := [c], errors := [] } := by
  simp only [batchPhase]
  have hgroups : ∀ g ∈ chunks (List.range (c.items.map Prod.fst).length) 1000,
      ∀ i ∈ g, ((c.items.getD i default).2).onChain = true := by
    intro g hg i hi
    have hin : i ∈ List.range (c.items.map Prod.fst).length := by
      simp only [chunks, List.mem_map] at hg
      obtain ⟨idx, _, rfl⟩ := hg
      exact jsSlice_subset _ _ _ i hi
    have hlt : i < c.items.length := by
      have := List.mem_range.mp hin
      simpa using this
    have hmem : c.items.getD i default ∈ c.items := by
      rw [List.getD_eq_getElem?_getD, List.getElem?_eq_getElem hlt]
      exact List.getElem_mem _
    exact hall _ hmem
  rw [runGroupsLoop_skip submit _ _ _ hgroups]
  rfl

/-- C4: a cache state in which the program is registered, every item has a
truthy `link`, every item is `onChain`, and every image of the (identical)
input covers an already-cached index, is a fixed point of the whole upload
action: the cache document is unchanged, and no fee payment, no storage
upload and no batch submission happens — only the unconditional final
flush.  A successful failure-free run produces exactly such a state, so a
second identical run changes nothing. -/
theorem upload_idempotent :
    ∀ (o : Oracles) (submit : Request → Except String String)
      (files : List String) (c : CacheDoc),
      jsFalsyOpt c.program.uuid = false →
      (∀ p ∈ c.items, jsFalsyOpt p.2.link = false) →
      (∀ p ∈ c.items, p.2.onChain = true) →
      (∀ f ∈ (newFilesOf files (c.items.map Prod.fst)).filter
          (fun f => jsExtname f = ".png"),
        ∃ p ∈ c.items, p.1 = replaceFirst (jsBasename f) ".png") →
      uploadAction o submit files c
        = { cache := c, feeTxs := [], uploads := [], attempts := [],
            saves := [c], errors := [], aborted := none } := by
  intro o submit files c huuid hlinks hchain hcover
  have hupload : uploadPhase o files c
      = { cache := c, feeTxs := [], uploads := [], saves := [], errors := [],
          aborted := none } := by
    simp only [uploadPhase]
    apply uploadLoop_skip
    · intro f hf
      obtain ⟨p, hp, hkey⟩ := hcover f hf
      have hsome : (c.items.find?
          (fun q => q.1 = replaceFirst (jsBasename f) ".png")).isSome := by
        rw [List.find?_isSome]
        exact ⟨p, hp, by simp [hkey]⟩
      obtain ⟨q, hq⟩ := Option.isSome_iff_exists.mp hsome
      have hqmem := List.mem_of_find?_eq_some hq
      have hget : getItem c.items (replaceFirst (jsBasename f) ".png")
          = some q.2 := by
        simp only [getItem, hq, Option.map_some']
      show jsFalsyOpt ((getItem c.items
        (replaceFirst (jsBasename f) ".png")).bind Item.link) = false
      rw [hget]
      exact hlinks q hqmem
    · exact huuid
  simp only [uploadAction, hupload]
  rw [batchPhase_skip submit c hchain]
  rfl

/-- Witness for `upload_idempotent`: re-running the upload over an already
fully uploaded and registered one-item cache changes nothing. -/
theorem upload_idempotent_witness :
    uploadAction
        { createConfig := Except.ok ("u", "cfg"), feeTx := fun _ => Except.ok "t",
          storage := fun _ => Except.ok [], manifestName := fun _ => "n" }
        (fun _ => Except.ok "tx") ["d/0.png"]
        { program := { uuid := some "u", config := some "cfg" },
          items := [("0", { link := some "x", name := "n", onChain := true })] }
      = { cache :=
            { program := { uuid := some "u", config := some "cfg" },
              items := [("0", { link := some "x", name := "n", onChain := true })] },
          feeTxs := [], uploads := [], attempts := [],
          saves :=
            [{ program := { uuid := some "u", config := some "cfg" },
               items := [("0", { link := some "x", name := "n", onChain := true })] }],
          errors := [], aborted := none } :=
  upload_idempotent _ _ _ _ (by decide) (by decide) (by decide) (by decide)

/-! ## C1: the registered-implies-linked invariant -/

/-- C1 counterexample: starting from the empty cache, an upload whose
storage response has no `manifest.json` record (here: an empty message
list) caches the item with `link` undefined and `onChain: false`; the batch
phase then submits it and, on confirmation, marks it `onChain: true` without
checking `link` — producing a reachable cache document with a registered
item whose `remoteAddress` is absent. -/
theorem invariant_violation_counterexample :
    Invariant { program := { uuid := none, config := none }, items := [] } ∧
    (uploadAction
        { createConfig := Except.ok ("u", "cfg"), feeTx := fun _ => Except.ok "t",
          storage := fun _ => Except.ok [], manifestName := fun _ => "zero" }
        (fun _ => Except.ok "tx") ["d/0.png", "d/0.json"]
        { program := { uuid := none, config := none }, items := [] }).cache.items
      = [("0", { link := none, name := "zero", onChain := true })] ∧
    ¬ Invariant (uploadAction
        { createConfig := Except.ok ("u", "cfg"), feeTx := fun _ => Except.ok "t",
          storage := fun _ => Except.ok [], manifestName := fun _ => "zero" }
        (fun _ => Except.ok "tx") ["d/0.png", "d/0.json"]
        { program := { uuid := none, config := none }, items := [] }).cache := by
  decide

/-- Membership after a JavaScript-object assignment. -/
theorem mem_setItem (items : List (String × Item)) (k : String) (v : Item) :
    ∀ p ∈ setItem items k v, p ∈ items ∨ p = (k, v) := by
  intro p hp
  simp only [setItem] at hp
  split at hp
  · obtain ⟨q, hq, hqe⟩ := List.mem_map.mp hp
    by_cases hqk : q.1 = k
    · right; rw [← hqe]; simp [hqk]
    · left; rw [← hqe]; simp [hqk]; exact hq
  · rcases List.mem_append.mp hp with h | h
    · left; exact h
    · right; simpa using h

/-- Writing a record that is not `onChain` preserves the item invariant. -/
theorem invariant_items_setItem (items : List (String × Item)) (k : String)
    (v : Item) (h : ∀ p ∈ items, ItemInvariant p.2) (hv : ItemInvariant v) :
    ∀ p ∈ setItem items k v, ItemInvariant p.2 := by
  intro p hp
  rcases mem_setItem items k v p hp with h1 | h1
  · exact h p h1
  · rw [h1]; exact hv

/-- One step of the per-item loop preserves the invariant, on the in-memory
document and on every snapshot it writes: the config step changes only the
`program` part, and the item record it may write always has
`onChain: false`. -/
theorem processItem_invariant (o : Oracles) (i : Nat) (image : String)
    (r : UploadResult) (hc : Invariant r.cache)
    (hs : ∀ d ∈ r.saves, Invariant d) :
    Invariant (processItem o i image r).cache ∧
    ∀ d ∈ (processItem o i image r).saves, Invariant d := by
  simp only [processItem]
  repeat' split
  all_goals refine ⟨?_, fun d hd => ?_⟩
  all_goals first
    | exact fun p hp => hc p hp
    | exact invariant_items_setItem _ _ _ (fun p hp => hc p hp)
        (fun hfalse => by simp at hfalse)
    | (simp only [List.append_nil, List.append_assoc, List.mem_append,
         List.mem_singleton, List.not_mem_nil, or_false, false_or] at hd;
       first
       | exact hs d hd
       | (casesm* _ ∨ _ <;>
          first
            | exact hs d (by assumption)
            | (subst_vars;
               first
               | exact fun p hp => hc p hp
               | exact invariant_items_setItem _ _ _ (fun p hp => hc p hp)
                   (fun hfalse => by simp at hfalse))))

/-- The whole per-item loop preserves the invariant on the document and on
every snapshot. -/
theorem uploadLoop_invariant (o : Oracles) :
    ∀ (imgs : List String) (i : Nat) (r : UploadResult),
      Invariant r.cache → (∀ d ∈ r.saves, Invariant d) →
      Invariant (uploadLoop o i imgs r).cache ∧
      ∀ d ∈ (uploadLoop o i imgs r).saves, Invariant d := by
  intro imgs
  induction imgs with
  | nil => intro i r hc hs; exact ⟨hc, hs⟩
  | cons f fs ih =>
    intro i r hc hs
    simp only [uploadLoop]
    obtain ⟨hc', hs'⟩ := processItem_invariant o i f r hc hs
    by_cases hab : (processItem o i f r).aborted.isSome
    · simp only [hab, if_true]
      exact ⟨hc', hs'⟩
    · simp only [hab, Bool.false_eq_true, if_false]
      exact ih (i + 1) (processItem o i f r) hc' hs'

/-- The upload phase preserves the invariant unconditionally (an item record
is only ever written with `onChain: false`). -/
theorem uploadPhase_invariant (o : Oracles) (files : List String)
    (c : CacheDoc) (hc : Invariant c) :
    Invariant (uploadPhase o files c).cache ∧
    ∀ d ∈ (uploadPhase o files c).saves, Invariant d := by
  simp only [uploadPhase]
  exact uploadLoop_invariant o _ 0 _ hc (fun d hd => by simp at hd)

/-- Marking one position `onChain` keeps every record's link. -/
theorem allGood_markOnChain (items : List (String × Item)) (i : Nat)
    (h : AllGood items) : AllGood (markOnChain items i) := by
  by_cases hlt : i < items.length
  · intro p hp
    simp only [markOnChain] at hp
    rcases List.mem_or_eq_of_mem_set hp with h1 | h1
    · exact h p h1
    · have hmem : items.getD i default ∈ items := by
        rw [List.getD_eq_getElem?_getD, List.getElem?_eq_getElem hlt]
        exact List.getElem_mem _
      rw [h1]
      show goodLink (items.getD i default).2.link
      exact h _ hmem
  · have hid : markOnChain items i = items := by
      simp only [markOnChain]
      exact List.set_eq_of_length_le (by omega)
    rw [hid]
    exact h

/-- Marking a whole micro-batch keeps every record's link. -/
theorem allGood_foldl_mark (indexes : List Nat) :
    ∀ (items : List (String × Item)), AllGood items →
      AllGood (indexes.foldl markOnChain items) := by
  induction indexes with
  | nil => intro items h; exact h
  | cons i rest ih =>
    intro items h
    exact ih (markOnChain items i) (allGood_markOnChain items i h)

/-- One micro-batch body keeps every record's link. -/
theorem microStep_allGood (submit : Request → Except String String)
    (keys : List String) (items : List (String × Item)) (indexes : List Nat)
    (h : AllGood items) : AllGood (microStep submit keys items indexes).items := by
  simp only [microStep]
  split
  · split
    · exact h
    · exact allGood_foldl_mark indexes items h
  · exact h

/-- A macro-group's loop keeps every record's link, in the final item map
and in every flushed snapshot. -/
theorem runGroupOffsets_allGood (submit : Request → Except String String)
    (keys : List String) (group : List Nat) :
    ∀ (offs : List Nat) (items : List (String × Item)), AllGood items →
      AllGood (runGroupOffsets submit keys group offs items).items ∧
      ∀ s ∈ (runGroupOffsets submit keys group offs items).saves, AllGood s := by
  intro offs
  induction offs with
  | nil =>
    intro items h
    exact ⟨h, fun s hs => by simp [runGroupOffsets] at hs⟩
  | cons off rest ih =>
    intro items h
    simp only [runGroupOffsets]
    have hm := microStep_allGood submit keys items (jsSlice off (off + 10) group) h
    cases hme : (microStep submit keys items (jsSlice off (off + 10) group)).error with
    | some e => exact ⟨hm, fun s hs => by simp at hs⟩
    | none =>
      obtain ⟨h1, h2⟩ := ih (microStep submit keys items (jsSlice off (off + 10) group)).items hm
      refine ⟨h1, fun s hs => ?_⟩
      rcases List.mem_append.mp hs with hs | hs
      · split at hs
        · rw [List.mem_singleton] at hs
          rw [hs]
          exact hm
        · simp at hs
      · exact h2 s hs

/-- All macro-groups keep every record's link. -/
theorem runGroupsLoop_allGood (submit : Request → Except String String)
    (keys : List String) :
    ∀ (groups : List (List Nat)) (items : List (String × Item)), AllGood items →
      AllGood (runGroupsLoop submit keys groups items).1 ∧
      ∀ s ∈ (runGroupsLoop submit keys groups items).2.2.1, AllGood s := by
  intro groups
  induction groups with
  | nil => intro items h; exact ⟨h, fun s hs => by simp [runGroupsLoop] at hs⟩
  | cons g gs ih =>
    intro items h
    simp only [runGroupsLoop, runGroup]
    obtain ⟨h1, h2⟩ := runGroupOffsets_allGood submit keys g (microOffsets g.length) items h
    obtain ⟨h3, h4⟩ := ih _ h1
    refine ⟨h3, fun s hs => ?_⟩
    rcases List.mem_append.mp hs with hs | hs
    · exact h2 s hs
    · exact h4 s hs

/-- A cache document all of whose records carry a link satisfies the
invariant outright. -/
theorem invariant_of_allGood (c : CacheDoc) (h : AllGood c.items) :
    Invariant c := fun p hp _ => h p hp

/-- The batch phase of an all-linked cache preserves the invariant, on the
result and on every flushed snapshot. -/
theorem batchPhase_invariant (submit : Request → Except String String)
    (c : CacheDoc) (h : AllGood c.items) :
    AllGood (batchPhase submit c).cache.items ∧
    Invariant (batchPhase submit c).cache ∧
    ∀ d ∈ (batchPhase submit c).saves, Invariant d := by
  simp only [batchPhase]
  obtain ⟨h1, h2⟩ := runGroupsLoop_allGood submit (c.items.map Prod.fst)
    (chunks (List.range (c.items.map Prod.fst).length) 1000) c.items h
  refine ⟨h1, invariant_of_allGood _ h1, fun d hd => ?_⟩
  rcases List.mem_append.mp hd with hd | hd
  · obtain ⟨its, hits, rfl⟩ := List.mem_map.mp hd
    exact invariant_of_allGood _ (h2 its hits)
  · rw [List.mem_singleton] at hd
    rw [hd]
    exact invariant_of_allGood _ h1

/-- The verifier preserves the invariant: it only ever clears `onChain`. -/
theorem verifyLoop_invariant (data : List Nat) :
    ∀ (items : List (String × Item)) (i : Nat),
      (∀ p ∈ items, ItemInvariant p.2) →
      ∀ p ∈ verifyLoop data i items, ItemInvariant p.2 := by
  intro items
  induction items with
  | nil => intro i _ p hp; simp [verifyLoop] at hp
  | cons q rest ih =>
    intro i h p hp
    obtain ⟨k, it⟩ := q
    simp only [verifyLoop, List.mem_cons] at hp
    rcases hp with hp | hp
    · rw [hp]
      split
      · intro hfalse; simp at hfalse
      · exact h (k, it) (List.mem_cons_self _ _)
    · exact ih (i + 1) (fun q hq => h q (List.mem_cons_of_mem _ hq)) p hp

/-- C1 (amended): the upload phase and the verifier preserve the invariant
`registeredOnLedger → remoteAddress present and non-empty` unconditionally
(on the in-memory document and on every flushed snapshot), but the batch
registration phase marks whole micro-batches `onChain` without checking
`link`, so it preserves the invariant only when every cached record carries
a present, non-empty link when it starts — as is the case when every
storage response contained a usable metadata record.  Without that premise
the invariant is violated (see the counterexample). -/
theorem cache_invariant_preservation :
    (∀ (o : Oracles) (files : List String) (c : CacheDoc),
      Invariant c →
        Invariant (uploadPhase o files c).cache ∧
        ∀ d ∈ (uploadPhase o files c).saves, Invariant d) ∧
    (∀ (submit : Request → Except String String) (c : CacheDoc),
      AllGood c.items →
        Invariant (batchPhase submit c).cache ∧
        ∀ d ∈ (batchPhase submit c).saves, Invariant d) ∧
    (∀ (data : List Nat) (c : CacheDoc),
      Invariant c → Invariant (verifyPass data c)) ∧
    (∀ (o : Oracles) (submit : Request → Except String String)
        (files : List String) (c : CacheDoc),
      Invariant c → AllGood (uploadPhase o files c).cache.items →
        Invariant (uploadAction o submit files c).cache ∧
        ∀ d ∈ (uploadAction o submit files c).saves, Invariant d) := by
  refine ⟨?_, ?_, ?_, ?_⟩
  · intro o files c hc
    exact uploadPhase_invariant o files c hc
  · intro submit c h
    obtain ⟨_, h2, h3⟩ := batchPhase_invariant submit c h
    exact ⟨h2, h3⟩
  · intro data c hc
    exact verifyLoop_invariant data c.items 0 hc
  · intro o submit files c hc hgood
    obtain ⟨hu1, hu2⟩ := uploadPhase_invariant o files c hc
    simp only [uploadAction]
    cases hab : (uploadPhase o files c).aborted with
    | some e => exact ⟨hu1, hu2⟩
    | none =>
      obtain ⟨_, hb2, hb3⟩ := batchPhase_invariant submit
        (uploadPhase o files c).cache hgood
      refine ⟨hb2, fun d hd => ?_⟩
      rcases List.mem_append.mp hd with hd | hd
      · exact hu2 d hd
      · exact hb3 d hd

/-- Witness for `cache_invariant_preservation`: a full run from the empty
cache with a storage response that does contain a `manifest.json` record
ends in a document satisfying the invariant. -/
theorem cache_invariant_preservation_witness :
    Invariant (uploadAction
        { createConfig := Except.ok ("u", "cfg"), feeTx := fun _ => Except.ok "t",
          storage := fun _ =>
            Except.ok [{ filename := "manifest.json", transactionId := "T" }],
          manifestName := fun _ => "n" }
        (fun _ => Except.ok "tx") ["d/0.png"]
        { program := { uuid := none, config := none }, items := [] }).cache :=
  (cache_invariant_preservation.2.2.2
    { createConfig := Except.ok ("u", "cfg"), feeTx := fun _ => Except.ok "t",
      storage := fun _ =>
        Except.ok [{ filename := "manifest.json", transactionId := "T" }],
      manifestName := fun _ => "n" }
    (fun _ => Except.ok "tx") ["d/0.png"]
    { program := { uuid := none, config := none }, items := [] }
    (by decide) (by decide)).1
